import Mathlib

/-!
Verification of the spectral-accumulation core of `rtlobs/collect.py`
(`run_total_power_int`, `run_spectrum_int`, `run_fswitch_int`).

The embedding works over exact rationals. External collaborators are
parameters of the embedded runs:
  * the sample source delivers the k-th IQ block (`List (ℚ × ℚ)` of I/Q pairs,
    or directly its per-block periodogram through the kernel `P`);
  * `scipy.signal.welch` is split into its frequency axis, which with
    `return_onesided=False` is `scipy.fft.fftfreq(nfft, 1/fs)` and is modelled
    exactly (`welchFreqs`), and its power output, an external kernel
    `P : ℕ → List ℚ` giving the periodogram of the k-th block;
  * `scipy.signal.get_window` is a parameter `getWindow : ℕ → List ℚ`;
  * `np.log10` is a parameter `log10 : ℚ → ℚ` applied element-wise.
Python `int()` truncation, Python `//` floor division (with its
`ZeroDivisionError`), numpy element-wise float division of an array by a zero
scalar (silent NaN/Inf) and Python scalar float division by zero
(`ZeroDivisionError`) are each modelled explicitly where a claim depends on
them.
-/

namespace RtlObs

/-- `np.zeros(n)` as a rational list. -/
def zerosQ (n : ℕ) : List ℚ := List.replicate n 0

/-- numpy element-wise `+` of two equal-length arrays (`p_xx_tot += p_xx`). -/
def npAdd (a b : List ℚ) : List ℚ := List.zipWith (· + ·) a b

/-- numpy array plus scalar broadcast (`freqs + fc`). -/
def npAddScalar (a : List ℚ) (c : ℚ) : List ℚ := a.map (fun x => x + c)

/-- numpy array times scalar broadcast. -/
def npMulScalar (a : List ℚ) (c : ℚ) : List ℚ := a.map (fun x => x * c)

/-- numpy array divided by a scalar, total (adequate for nonzero divisors;
the zero-divisor float behaviour is modelled separately by `npDivVal`). -/
def npDivScalar (a : List ℚ) (c : ℚ) : List ℚ := a.map (fun x => x / c)

/-- numpy element-wise `*` of two arrays (`win*win`). -/
def npMul (a b : List ℚ) : List ℚ := List.zipWith (· * ·) a b

/-- numpy `.sum()`. -/
def npSum (a : List ℚ) : ℚ := a.sum

/-- `np.fft.fftshift`: roll the array right by `len // 2`, i.e. the last
`len // 2` entries move to the front (zero frequency lands in the middle). -/
def fftshift {α : Type} (l : List α) : List α :=
  l.drop (l.length - l.length / 2) ++ l.take (l.length - l.length / 2)

/-- Bin `i` of `scipy.fft.fftfreq(n, d)` with `d = 1/fs`, divided by `fs`:
`[0, 1, ..., ceil(n/2)-1, -floor(n/2), ..., -1] / n`. -/
def fftfreqVal (n i : ℕ) : ℚ := if i < (n + 1) / 2 then (i : ℚ) / n else ((i : ℚ) - n) / n

/-- The frequency axis `scipy.signal.welch(..., return_onesided=False)`
returns for FFT length `nfft` and sample rate `fs`. -/
def welchFreqs (nfft : ℕ) (fs : ℚ) : List ℚ :=
  (List.range nfft).map (fun i => fftfreqVal nfft i * fs)

/-- Python `int()` applied to a real value: truncation toward zero. -/
def pyInt (q : ℚ) : ℤ := if 0 ≤ q then ⌊q⌋ else -⌊-q⌋

/-- The error kinds of the runs: the `assert` guarding `run_fswitch_int`
(the spec's `InvalidConfiguration`) and Python `ZeroDivisionError`
(the spec's `DivideByZero`). -/
inductive Err where
  | invalidConfiguration
  | divideByZero
deriving DecidableEq

/-- Hardware interactions of a run: SDR initialisation/configuration
(`RtlSdr()`, `sdr.rs/fc/gain = ...`), a retune (`sdr.fc = ...`) and one
`sdr.read_samples` call for block number `k`. -/
inductive Event where
  | configure
  | retune (f : ℚ)
  | readBlock (k : ℕ)
deriving DecidableEq

/-! ## run_total_power_int (collect.py lines 58-86) -/

/-- `np.real(iq * np.conj(iq))` for one complex sample: `I^2 + Q^2`. -/
def samplePower (z : ℚ × ℚ) : ℚ := z.1 * z.1 + z.2 * z.2

/-- `np.sum(np.real(iq * np.conj(iq)))` over one block. -/
def blockPower (iq : List (ℚ × ℚ)) : ℚ := (iq.map samplePower).sum

/-- The accumulator state of the total-power path: the module globals
`p_tot` and `cnt` of collect.py lines 58-61. -/
structure TPState where
  p_tot : ℚ
  cnt : ℕ
deriving DecidableEq

/-- `p_tot = 0.0; cnt = 0` (collect.py lines 60-61). -/
def tpInit : TPState := ⟨0, 0⟩

/-- One invocation of `p_tot_callback` (collect.py lines 69-75):
add the block's summed squared magnitudes, increment the call counter. -/
def tpAdd (s : TPState) (iq : List (ℚ × ℚ)) : TPState :=
  ⟨s.p_tot + blockPower iq, s.cnt + 1⟩

/-- The state after the callback has run on each delivered block in order. -/
def tpRun (blocks : List (List (ℚ × ℚ))) : TPState := blocks.foldl tpAdd tpInit

/-- `p_avg = p_tot / (num_samp * cnt)` (collect.py line 86): Python scalar
float division, which raises `ZeroDivisionError` on a zero divisor. -/
def tpFinalize (num_samp : ℕ) (s : TPState) : Except Err ℚ :=
  if (num_samp : ℚ) * (s.cnt : ℚ) = 0 then Except.error Err.divideByZero
  else Except.ok (s.p_tot / ((num_samp : ℚ) * (s.cnt : ℚ)))

/-- `run_total_power_int`, with the delivered blocks (the external sample
source's pushes) as input. -/
def run_total_power_int (num_samp : ℕ) (blocks : List (List (ℚ × ℚ))) : Except Err ℚ :=
  tpFinalize num_samp (tpRun blocks)

/-! ## PSD normalization stage (collect.py lines 206-209) -/

/-- `p_avg * ((win.sum()**2) / (win*win).sum()) / rate` (collect.py line 207). -/
def psd_normalize (win : List ℚ) (rate : ℚ) (p : List ℚ) : List ℚ :=
  npDivScalar (npMulScalar p ((npSum win) ^ 2 / npSum (npMul win win))) rate

/-- `10. * np.log10(p_avg_hz)` (collect.py line 209), with `np.log10`
as the external element-wise map `log10`. -/
def toDb (log10 : ℚ → ℚ) (p : List ℚ) : List ℚ := npMulScalar (p.map log10) 10

/-! ## run_spectrum_int (collect.py lines 103-226) -/

/-- `if nbins < 256: nperseg = nbins else: nperseg = 256`
(collect.py lines 126-129). -/
def nperseg_spectrum (nbins : ℕ) : ℕ := if nbins < 256 then nbins else 256

/-- `N = int(sdr.rs * t_int)` (collect.py line 144). -/
def spectrum_N (rate t_int : ℚ) : ℤ := pyInt (rate * t_int)

/-- `num_loops = int(N / num_samp) + 1` (collect.py line 145; `/` is Python
float true division). -/
def spectrum_num_loops (num_samp : ℕ) (rate t_int : ℚ) : ℤ :=
  pyInt ((spectrum_N rate t_int : ℚ) / (num_samp : ℚ)) + 1

/-- The value of `cnt` after `for cnt in range(m)` (collect.py line 173):
the final loop index, `m - 1`, when the loop ran; the initialisation
`cnt = 0` (line 152) otherwise. -/
def loopFinalCnt (m : ℤ) : ℕ := if m.toNat = 0 then 0 else m.toNat - 1

/-- `p_xx_tot` after the integration loop (collect.py lines 151, 173-177):
the element-wise sum of the periodogram of every block read, starting from
`np.zeros(nbins)`. -/
def spectrum_p_sum (P : ℕ → List ℚ) (nbins iters : ℕ) : List ℚ :=
  (List.range iters).foldl (fun acc k => npAdd acc (P k)) (zerosQ nbins)

/-- Every local of `run_spectrum_int` the claims speak about. -/
structure SpectrumPipe where
  num_loops : ℤ
  cnt : ℕ
  freqs_welch : List ℚ
  p_xx_tot : List ℚ
  p_avg : List ℚ
  p_avg_hz : List ℚ
  p_avg_db_hz : List ℚ
  freqs : List ℚ

/-- `run_spectrum_int` (collect.py lines 103-226) with all intermediates:
loop accumulation, `np.fft.fftshift` of freqs and powers (lines 190-191),
`p_avg = p_xx_tot / cnt` (line 194; total rational division stands in for
numpy here, see `spectrum_finalize_np` for the zero-count float semantics),
PSD conversion with the window `get_window(WINDOW, nperseg)` (lines 206-209)
and the axis shift `freqs + fc` (line 212). `freqs_welch` is the `freqs`
array as left by the loop: `np.zeros(nbins)` if the loop never ran, else the
two-sided welch axis of the last call. -/
def spectrum_pipeline (num_samp nbins : ℕ) (rate fc t_int : ℚ) (P : ℕ → List ℚ)
    (getWindow : ℕ → List ℚ) (log10 : ℚ → ℚ) : SpectrumPipe :=
  let m := spectrum_num_loops num_samp rate t_int
  let iters := m.toNat
  let p_tot := spectrum_p_sum P nbins iters
  let c := loopFinalCnt m
  let fw := if iters = 0 then zerosQ nbins else welchFreqs nbins rate
  let p_avg := npDivScalar (fftshift p_tot) (c : ℚ)
  let win := getWindow (nperseg_spectrum nbins)
  let p_hz := psd_normalize win rate p_avg
  ⟨m, c, fw, p_tot, p_avg, p_hz, toDb log10 p_hz, npAddScalar (fftshift fw) fc⟩

/-- The pair `run_spectrum_int` returns (collect.py line 226). -/
def run_spectrum_int (num_samp nbins : ℕ) (rate fc t_int : ℚ) (P : ℕ → List ℚ)
    (getWindow : ℕ → List ℚ) (log10 : ℚ → ℚ) : List ℚ × List ℚ :=
  ((spectrum_pipeline num_samp nbins rate fc t_int P getWindow log10).freqs,
   (spectrum_pipeline num_samp nbins rate fc t_int P getWindow log10).p_avg_db_hz)

/-! ## numpy float division of an array by a zero scalar -/

/-- An IEEE-ish value as numpy element-wise division can produce it. -/
inductive NpVal where
  | finite (q : ℚ)
  | nan
  | posInf
  | negInf
deriving DecidableEq

/-- numpy float division of one array element by a scalar: dividing by zero
emits a RuntimeWarning but returns NaN (for a zero numerator) or a signed
infinity; no exception is raised. -/
def npDivVal (a b : ℚ) : NpVal :=
  if b = 0 then (if a = 0 then NpVal.nan else if 0 < a then NpVal.posInf else NpVal.negInf)
  else NpVal.finite (a / b)

/-- `p_avg = p_xx_tot / cnt` (collect.py line 194, likewise lines 334-335)
with numpy float semantics made explicit: the element-wise division of the
accumulated sums by the count. -/
def spectrum_finalize_np (p : List ℚ) (cnt : ℕ) : List NpVal :=
  p.map (fun a => npDivVal a (cnt : ℚ))

/-! ## run_fswitch_int (collect.py lines 229-355) -/

/-- `N = int(sdr.rs * t_int)` (collect.py line 277). -/
def fswitch_N (rate t_int : ℚ) : ℤ := pyInt (rate * t_int)

/-- `N_dwell = int(sdr.rs * (1.0 / fswitch))` (collect.py line 279). -/
def fswitch_Ndwell (rate fswitch : ℚ) : ℤ := pyInt (rate * (1 / fswitch))

/-- `num_loops = N_dwell // num_samp` (collect.py line 281; Python floor
division). -/
def fswitch_num_loops (num_samp : ℕ) (rate fswitch : ℚ) : ℤ :=
  Int.fdiv (fswitch_Ndwell rate fswitch) (num_samp : ℤ)

/-- `num_dwells = N // N_dwell` (collect.py line 283; Python floor
division). -/
def fswitch_num_dwells (rate t_int fswitch : ℚ) : ℤ :=
  Int.fdiv (fswitch_N rate t_int) (fswitch_Ndwell rate fswitch)

/-- The `nperseg` argument of the `welch` calls of `run_fswitch_int`
(collect.py lines 314 and 317): `nperseg=nbins`, no cap. -/
def fswitch_nperseg (nbins : ℕ) : ℕ := nbins

/-- The center frequency the dwell loop tunes to: `fc` on even dwell index
(`tick`), `fthrow` on odd (collect.py lines 305-309). -/
def dwell_tune (fc fthrow : ℚ) (i : ℕ) : ℚ := if i % 2 = 0 then fc else fthrow

/-- The loop state of `run_fswitch_int` (collect.py lines 292-296). -/
structure FsState where
  freqs_on : List ℚ
  freqs_off : List ℚ
  p_xx_on : List ℚ
  p_xx_off : List ℚ
  cnt : ℕ
deriving DecidableEq

/-- collect.py lines 292-296: four `np.zeros(nbins)` arrays and `cnt = 0`. -/
def fsInit (nbins : ℕ) : FsState :=
  ⟨zerosQ nbins, zerosQ nbins, zerosQ nbins, zerosQ nbins, 0⟩

/-- One inner-loop iteration (collect.py lines 311-319): read block number
`t.cnt`, run `welch` on it, add the periodogram to the accumulator of the
current state and increment `cnt`. -/
def fsStep (nbins : ℕ) (rate : ℚ) (P : ℕ → List ℚ) (tick : Bool) (t : FsState) : FsState :=
  if tick then
    { t with freqs_on := welchFreqs (fswitch_nperseg nbins) rate,
             p_xx_on := npAdd t.p_xx_on (P t.cnt), cnt := t.cnt + 1 }
  else
    { t with freqs_off := welchFreqs (fswitch_nperseg nbins) rate,
             p_xx_off := npAdd t.p_xx_off (P t.cnt), cnt := t.cnt + 1 }

/-- `for j in range(num_loops)` at a fixed tick (collect.py lines 310-319). -/
def fsInner (nbins L : ℕ) (rate : ℚ) (P : ℕ → List ℚ) (tick : Bool) (s : FsState) : FsState :=
  (List.range L).foldl (fun t _ => fsStep nbins rate P tick t) s

/-- `for i in range(num_dwells)` (collect.py lines 304-319): the tick of
dwell `i` is `i % 2 == 0`. -/
def fsLoop (nbins L D : ℕ) (rate : ℚ) (P : ℕ → List ℚ) : FsState :=
  (List.range D).foldl (fun s i => fsInner nbins L rate P (i % 2 == 0) s) (fsInit nbins)

/-- Element-wise accumulation of the periodograms of the listed block
numbers, left to right from `init`. -/
def npFoldAdd (P : ℕ → List ℚ) (init : List ℚ) (ks : List ℕ) : List ℚ :=
  ks.foldl (fun acc k => npAdd acc (P k)) init

/-- The element-wise sum of the periodograms of exactly those blocks whose
dwell index `k / L` has parity `r`: the blocks the scheduler routes to the
ON (`r = 0`) or OFF (`r = 1`) accumulator. -/
def routedSum (P : ℕ → List ℚ) (nbins L D r : ℕ) : List ℚ :=
  npFoldAdd P (zerosQ nbins) ((List.range (D * L)).filter (fun k => k / L % 2 == r))

/-- The four arrays handed to `f_throw_fold` (collect.py line 341). -/
structure FoldInput where
  freqs_on : List ℚ
  freqs_off : List ℚ
  p_on : List ℚ
  p_off : List ℚ
deriving DecidableEq

/-- collect.py lines 326-341: `np.fft.fftshift` of both axes and both sums,
`p_avg_on = p_xx_on / cnt`, `p_avg_off = p_xx_off / cnt` (the numpy division
of line 194's kind; total rational division here), `freqs_on + fc`,
`freqs_off + fthrow`, then the call to the folder. -/
def fswitch_fold_input (nbins L D : ℕ) (rate fc fthrow : ℚ) (P : ℕ → List ℚ) : FoldInput :=
  ⟨npAddScalar (fftshift (fsLoop nbins L D rate P).freqs_on) fc,
   npAddScalar (fftshift (fsLoop nbins L D rate P).freqs_off) fthrow,
   npDivScalar (fftshift (fsLoop nbins L D rate P).p_xx_on) ((fsLoop nbins L D rate P).cnt : ℚ),
   npDivScalar (fftshift (fsLoop nbins L D rate P).p_xx_off) ((fsLoop nbins L D rate P).cnt : ℚ)⟩

/-- The folder input as `run_fswitch_int` computes it from its parameters. -/
def fswitch_run_fold_input (num_samp nbins : ℕ) (rate fc fthrow t_int fswitch : ℚ)
    (P : ℕ → List ℚ) : FoldInput :=
  fswitch_fold_input nbins (fswitch_num_loops num_samp rate fswitch).toNat
    (fswitch_num_dwells rate t_int fswitch).toNat rate fc fthrow P

/-- The hardware interactions of a completed `run_fswitch_int`: one
configuration, then per dwell one retune (to `fc` on even dwells, `fthrow`
on odd) followed by `num_loops` block reads. -/
def fswitch_trace (fc fthrow : ℚ) (L D : ℕ) : List Event :=
  Event.configure :: (List.range D).flatMap (fun i =>
    Event.retune (dwell_tune fc fthrow i) :: (List.range L).map (fun j => Event.readBlock (i * L + j)))

/-- `run_fswitch_int` (collect.py lines 229-355): the `assert t_int >=
2.0*(1.0/fswitch)` of line 258 runs before `RtlSdr()` of line 264, so a
failed assert produces no hardware event at all. A zero `num_samp` or
`N_dwell` raises `ZeroDivisionError` at the `//` of lines 281/283, after
configuration but before any read. Otherwise the run returns the full event
trace and the arrays handed to the folder. -/
def run_fswitch_int (num_samp nbins : ℕ) (rate fc fthrow t_int fswitch : ℚ)
    (P : ℕ → List ℚ) : List Event × Except Err FoldInput :=
  if 2 * (1 / fswitch) ≤ t_int then
    if num_samp = 0 ∨ fswitch_Ndwell rate fswitch = 0 then
      ([Event.configure], Except.error Err.divideByZero)
    else
      (fswitch_trace fc fthrow (fswitch_num_loops num_samp rate fswitch).toNat
        (fswitch_num_dwells rate t_int fswitch).toNat,
       Except.ok (fswitch_run_fold_input num_samp nbins rate fc fthrow t_int fswitch P))
  else ([], Except.error Err.invalidConfiguration)

/-! ## Helper lemmas -/

theorem tp_foldl_spec (blocks : List (List (ℚ × ℚ))) (s : TPState) :
    (blocks.foldl tpAdd s).p_tot = s.p_tot + (blocks.map blockPower).sum
    ∧ (blocks.foldl tpAdd s).cnt = s.cnt + blocks.length := by
  induction blocks generalizing s with
  | nil => simp
  | cons b bs ih =>
    obtain ⟨ih1, ih2⟩ := ih (tpAdd s b)
    refine ⟨?_, ?_⟩
    · rw [List.foldl_cons, ih1]
      simp only [tpAdd, List.map_cons, List.sum_cons]
      ring
    · rw [List.foldl_cons, ih2]
      simp only [tpAdd, List.length_cons]
      omega

theorem blockPower_const (k : ℚ) (b : List (ℚ × ℚ)) (h : ∀ z ∈ b, samplePower z = k) :
    blockPower b = (b.length : ℚ) * k := by
  unfold blockPower
  induction b with
  | nil => simp
  | cons z zs ih =>
    simp only [List.mem_cons, forall_eq_or_imp] at h
    simp only [List.map_cons, List.sum_cons, List.length_cons, h.1, ih h.2]
    push_cast
    ring

theorem map_blockPower_sum (num_samp : ℕ) (k : ℚ) (blocks : List (List (ℚ × ℚ)))
    (hlen : ∀ b ∈ blocks, b.length = num_samp)
    (hpow : ∀ b ∈ blocks, ∀ z ∈ b, samplePower z = k) :
    (blocks.map blockPower).sum = (blocks.length : ℚ) * ((num_samp : ℚ) * k) := by
  induction blocks with
  | nil => simp
  | cons b bs ih =>
    simp only [List.mem_cons, forall_eq_or_imp] at hlen hpow
    simp only [List.map_cons, List.sum_cons, List.length_cons,
      blockPower_const k b hpow.1, hlen.1, ih hlen.2 hpow.2]
    push_cast
    ring

/-! ## Claim theorems -/

/-- Claim C9: the total-power accumulator adds each block's summed squared
magnitudes while counting calls, and finalization divides by
`num_samp * cnt`; hence for any nonempty run of blocks of length `num_samp`
whose samples all carry power `k`, the finalized average is exactly `k`,
independent of how many blocks were delivered. -/
theorem c9_total_power_mean (num_samp : ℕ) (k : ℚ) (blocks : List (List (ℚ × ℚ)))
    (hns : 0 < num_samp) (hne : blocks ≠ [])
    (hlen : ∀ b ∈ blocks, b.length = num_samp)
    (hpow : ∀ b ∈ blocks, ∀ z ∈ b, samplePower z = k) :
    run_total_power_int num_samp blocks = Except.ok k
    ∧ (tpRun blocks).p_tot = (blocks.length : ℚ) * ((num_samp : ℚ) * k)
    ∧ (tpRun blocks).cnt = blocks.length := by
  obtain ⟨h1, h2⟩ := tp_foldl_spec blocks tpInit
  have hp : (tpRun blocks).p_tot = (blocks.length : ℚ) * ((num_samp : ℚ) * k) := by
    rw [tpRun, h1, map_blockPower_sum num_samp k blocks hlen hpow]
    simp [tpInit]
  have hc : (tpRun blocks).cnt = blocks.length := by
    rw [tpRun, h2]; simp [tpInit]
  refine ⟨?_, hp, hc⟩
  have hlnz : blocks.length ≠ 0 := fun h => hne (List.length_eq_zero.mp h)
  have hq : ((num_samp : ℚ) * ((tpRun blocks).cnt : ℚ)) ≠ 0 := by
    rw [hc]
    have : (num_samp : ℚ) ≠ 0 := Nat.cast_ne_zero.mpr (Nat.pos_iff_ne_zero.mp hns)
    have : (blocks.length : ℚ) ≠ 0 := Nat.cast_ne_zero.mpr hlnz
    positivity
  rw [run_total_power_int, tpFinalize, if_neg hq, hp, hc]
  congr 1
  field_simp
  ring

/-- Witness for C9 at two identical blocks of two samples of power 5. -/
theorem c9_total_power_mean_w :
    run_total_power_int 2 [[((1 : ℚ), (2 : ℚ)), (2, 1)], [(1, 2), (2, 1)]] = Except.ok 5 :=
  (c9_total_power_mean 2 5 [[((1 : ℚ), (2 : ℚ)), (2, 1)], [(1, 2), (2, 1)]]
    (by norm_num) (by simp)
    (by rintro b hb; fin_cases hb <;> rfl)
    (by rintro b hb z hz; fin_cases hb <;> fin_cases hz <;> norm_num [samplePower])).1

/-- Claim C2: a `t_int` shorter than one full ON plus one full OFF dwell is
rejected by the assert of collect.py line 258 before the SDR is even
instantiated: the run returns the configuration error with an empty
hardware-event trace, for every sample source. -/
theorem c2_short_t_int_rejected (num_samp nbins : ℕ) (rate fc fthrow t_int fswitch : ℚ)
    (P : ℕ → List ℚ) (h : t_int < 2 * (1 / fswitch)) :
    run_fswitch_int num_samp nbins rate fc fthrow t_int fswitch P
      = ([], Except.error Err.invalidConfiguration) := by
  rw [run_fswitch_int, if_neg (not_le.mpr h)]

/-- Witness for C2: `t_int = 0.1 s`, `fswitch = 1 Hz` is rejected with no
hardware event. -/
theorem c2_short_t_int_rejected_w :
    run_fswitch_int 1024 1024 2048000 1420405751 1420105751 (1 / 10) 1 (fun _ => zerosQ 1024)
      = ([], Except.error Err.invalidConfiguration) :=
  c2_short_t_int_rejected 1024 1024 2048000 1420405751 1420105751 (1 / 10) 1
    (fun _ => zerosQ 1024) (by norm_num)

/-- Claim C3: the PSD normalizer multiplies each bin of the averaged power
spectrum by `sum(win)^2 / sum(win*win)` and divides by the sample rate, and
the dB stage is the element-wise `10*log10`; `run_spectrum_int` applies
exactly these stages to its averaged spectrum. -/
theorem c3_psd_normalizer (win : List ℚ) (rate : ℚ) (p : List ℚ) (log10 : ℚ → ℚ)
    (num_samp nbins : ℕ) (fc t_int : ℚ) (P : ℕ → List ℚ) (getWindow : ℕ → List ℚ) (i : ℕ) :
    (psd_normalize win rate p)[i]?
      = (p[i]?).map (fun x => x * ((npSum win) ^ 2 / npSum (npMul win win)) / rate)
    ∧ (toDb log10 (psd_normalize win rate p))[i]?
      = ((psd_normalize win rate p)[i]?).map (fun x => 10 * log10 x)
    ∧ (spectrum_pipeline num_samp nbins rate fc t_int P getWindow log10).p_avg_hz
      = psd_normalize (getWindow (nperseg_spectrum nbins)) rate
          (spectrum_pipeline num_samp nbins rate fc t_int P getWindow log10).p_avg
    ∧ (spectrum_pipeline num_samp nbins rate fc t_int P getWindow log10).p_avg_db_hz
      = toDb log10 (spectrum_pipeline num_samp nbins rate fc t_int P getWindow log10).p_avg_hz := by
  refine ⟨?_, ?_, rfl, rfl⟩
  · cases h : p[i]? <;>
      simp [psd_normalize, npDivScalar, npMulScalar, List.getElem?_map, h]
  · cases h : (psd_normalize win rate p)[i]? <;>
      simp [toDb, npMulScalar, List.getElem?_map, h, mul_comm]

/-- Claim C4 counterexample: finalizing a spectrum accumulator with zero
count does not fail: numpy division quietly returns NaN (zero sums) and
+Inf (positive sums). -/
theorem c4_zero_count_silent_nan :
    spectrum_finalize_np [0, 5] 0 = [NpVal.nan, NpVal.posInf] := by decide

/-- Claim C4 amended: finalizing the scalar total-power accumulator with
zero contributions does fail with the divide-by-zero error, but finalizing
a spectrum accumulator with zero count signals nothing and yields only
non-finite values (NaN or a signed infinity) in the result array. -/
theorem c4_zero_count_behaviour :
    (∀ (num_samp : ℕ) (p : ℚ), tpFinalize num_samp ⟨p, 0⟩ = Except.error Err.divideByZero)
    ∧ (∀ (p : List ℚ) (v : NpVal), v ∈ spectrum_finalize_np p 0 →
        v = NpVal.nan ∨ v = NpVal.posInf ∨ v = NpVal.negInf) := by
  constructor
  · intro ns p
    simp [tpFinalize]
  · intro p v hv
    simp only [spectrum_finalize_np, List.mem_map] at hv
    obtain ⟨a, -, rfl⟩ := hv
    rw [npDivVal]
    rw [if_pos (by norm_num)]
    split
    · simp
    · split <;> simp

/-- Claim C5 counterexample: at `nbins = 512` the `welch` calls of
`run_fswitch_int` use `nperseg = nbins = 512`, not `min(nbins, 256) = 256`. -/
theorem c5_fswitch_no_cap :
    fswitch_nperseg 512 = 512 ∧ min 512 256 = 256
      ∧ fswitch_nperseg 512 ≠ min 512 256 := by decide

/-- Claim C5 amended: `run_spectrum_int` fixes `nperseg = min(nbins, 256)`
once per run (collect.py lines 126-129), while `run_fswitch_int` passes
`nperseg = nbins` to every `welch` call, with no cap at 256. -/
theorem c5_nperseg_policy (nbins : ℕ) :
    nperseg_spectrum nbins = min nbins 256 ∧ fswitch_nperseg nbins = nbins := by
  refine ⟨?_, rfl⟩
  rw [nperseg_spectrum]
  split <;> omega

/-- Claim C1 (code bug): at `num_samp = 1`, `rate = 2`, `t_int = 1` the
spectrum loop adds `num_loops = 3` periodograms but finalization divides by
the final loop index `cnt = 2`, so a constant unit periodogram averages to
`3/2`, not `1`; and in `run_fswitch_int` at `t_int = 2`, `fswitch = 1` the
ON accumulator receives 2 periodograms but is divided by the combined count
4, so a constant unit periodogram averages to `1/2`, not `1`. -/
theorem c1_count_mismatch :
    spectrum_num_loops 1 2 1 = 3
    ∧ (spectrum_pipeline 1 1 2 0 1 (fun _ => [1]) (fun n => List.replicate n 1) (fun x => x)).cnt = 2
    ∧ (spectrum_pipeline 1 1 2 0 1 (fun _ => [1]) (fun n => List.replicate n 1) (fun x => x)).p_avg
        = [3 / 2]
    ∧ (3 : ℚ) / 2 ≠ 3 / 3
    ∧ (fswitch_run_fold_input 1 1 2 0 1 2 1 (fun _ => [1])).p_on = [1 / 2]
    ∧ (1 : ℚ) / 2 ≠ 2 / 2 := by
  have h1 : spectrum_num_loops 1 2 1 = 3 := by norm_num [spectrum_num_loops, spectrum_N, pyInt]
  have hN : fswitch_N 2 2 = 4 := by norm_num [fswitch_N, pyInt]
  have hNd : fswitch_Ndwell 2 1 = 2 := by norm_num [fswitch_Ndwell, pyInt]
  have hL : fswitch_num_loops 1 2 1 = 2 := by rw [fswitch_num_loops, hNd]; decide
  have hD : fswitch_num_dwells 2 2 1 = 2 := by rw [fswitch_num_dwells, hN, hNd]; decide
  refine ⟨h1, ?_, ?_, by norm_num, ?_, by norm_num⟩
  · simp [spectrum_pipeline, h1, loopFinalCnt]
  · simp [spectrum_pipeline, h1, loopFinalCnt, spectrum_p_sum, List.range_succ, npAdd, zerosQ,
      fftshift, npDivScalar]
    norm_num
  · rw [fswitch_run_fold_input, hL, hD]
    simp [fswitch_fold_input, fsLoop, fsInner, fsStep, fsInit, List.range_succ, npAdd, zerosQ,
      fftshift, npDivScalar]
    norm_num

/-- Claim C6 counterexample: at `rate = 10`, `t_int = 1`, `fswitch = 4` the
code computes `num_dwells = int(10) // int(2.5) = 5`, but the claimed
formula `floor((rate * t_int) / (rate / fswitch)) = floor(10 / 2.5)` gives
`4`. -/
theorem c6_num_dwells_formula_gap :
    fswitch_num_dwells 10 1 4 = 5
    ∧ ⌊((10 : ℚ) * 1) / ((10 : ℚ) / 4)⌋ = 4
    ∧ fswitch_num_dwells 10 1 4 ≠ ⌊((10 : ℚ) * 1) / ((10 : ℚ) / 4)⌋ := by
  have h1 : fswitch_N 10 1 = 10 := by norm_num [fswitch_N, pyInt]
  have h2 : fswitch_Ndwell 10 4 = 2 := by norm_num [fswitch_Ndwell, pyInt]
  have h3 : fswitch_num_dwells 10 1 4 = 5 := by rw [fswitch_num_dwells, h1, h2]; decide
  have h4 : ⌊((10 : ℚ) * 1) / ((10 : ℚ) / 4)⌋ = 4 := by norm_num
  exact ⟨h3, h4, by rw [h3, h4]; decide⟩

theorem npFoldAdd_append (P : ℕ → List ℚ) (init : List ℚ) (a b : List ℕ) :
    npFoldAdd P init (a ++ b) = npFoldAdd P (npFoldAdd P init a) b := by
  simp [npFoldAdd, List.foldl_append]

theorem fsInner_succ (nbins n : ℕ) (rate : ℚ) (P : ℕ → List ℚ) (tick : Bool) (s : FsState) :
    fsInner nbins (n + 1) rate P tick s = fsStep nbins rate P tick (fsInner nbins n rate P tick s) := by
  rw [fsInner, fsInner, List.range_succ, List.foldl_append, List.foldl_cons, List.foldl_nil]

theorem fsInner_true (nbins L : ℕ) (rate : ℚ) (P : ℕ → List ℚ) (s : FsState) :
    fsInner nbins L rate P true s =
      ⟨if L = 0 then s.freqs_on else welchFreqs (fswitch_nperseg nbins) rate, s.freqs_off,
       npFoldAdd P s.p_xx_on ((List.range L).map (fun j => s.cnt + j)), s.p_xx_off, s.cnt + L⟩ := by
  induction L with
  | zero =>
    cases s
    simp [fsInner, npFoldAdd]
  | succ n ih =>
    rw [fsInner_succ, ih, fsStep, if_pos rfl]
    simp only [List.range_succ, List.map_append, List.map_cons, List.map_nil, npFoldAdd,
      List.foldl_append, List.foldl_cons, List.foldl_nil, Nat.succ_ne_zero, if_false,
      FsState.mk.injEq]
    refine ⟨?_, ?_⟩
    · cases n <;> simp
    · exact ⟨trivial, trivial, trivial, by omega⟩

theorem fsInner_false (nbins L : ℕ) (rate : ℚ) (P : ℕ → List ℚ) (s : FsState) :
    fsInner nbins L rate P false s =
      ⟨s.freqs_on, if L = 0 then s.freqs_off else welchFreqs (fswitch_nperseg nbins) rate,
       s.p_xx_on, npFoldAdd P s.p_xx_off ((List.range L).map (fun j => s.cnt + j)), s.cnt + L⟩ := by
  induction L with
  | zero =>
    cases s
    simp [fsInner, npFoldAdd]
  | succ n ih =>
    rw [fsInner_succ, ih, fsStep, if_neg (by simp)]
    simp only [List.range_succ, List.map_append, List.map_cons, List.map_nil, npFoldAdd,
      List.foldl_append, List.foldl_cons, List.foldl_nil, Nat.succ_ne_zero, if_false,
      FsState.mk.injEq]
    refine ⟨?_, ?_⟩
    · cases n <;> simp
    · exact ⟨trivial, trivial, trivial, by omega⟩

theorem fsLoop_succ (nbins L D : ℕ) (rate : ℚ) (P : ℕ → List ℚ) :
    fsLoop nbins L (D + 1) rate P =
      fsInner nbins L rate P (D % 2 == 0) (fsLoop nbins L D rate P) := by
  rw [fsLoop, fsLoop, List.range_succ, List.foldl_append, List.foldl_cons, List.foldl_nil]

theorem range_filter_dwell (L D r : ℕ) :
    (List.range L).filter (fun j => (D * L + j) / L % 2 == r) =
      if D % 2 = r then List.range L else [] := by
  rcases Nat.eq_zero_or_pos L with hL | hL
  · subst hL
    simp [List.range_zero]
  · have key : ∀ j ∈ List.range L, ((D * L + j) / L % 2 == r) = (D % 2 == r) := by
      intro j hj
      rw [List.mem_range] at hj
      have hd : (D * L + j) / L = D := by
        rw [Nat.mul_comm D L, Nat.mul_add_div hL, Nat.div_eq_of_lt hj]
        omega
      rw [hd]

    rw [List.filter_congr key]
    by_cases h : D % 2 = r
    · rw [if_pos h]
      have hb : (D % 2 == r) = true := by simpa using h
      simp only [hb, List.filter_true]
    · rw [if_neg h]
      have hb : (D % 2 == r) = false := by simpa using h
      simp only [hb, List.filter_false]

theorem routedSum_succ (P : ℕ → List ℚ) (nbins L D r : ℕ) :
    routedSum P nbins L (D + 1) r =
      if D % 2 = r then
        npFoldAdd P (routedSum P nbins L D r) ((List.range L).map (fun j => D * L + j))
      else routedSum P nbins L D r := by
  rw [routedSum, routedSum]
  rw [show (D + 1) * L = D * L + L by ring]
  rw [List.range_add, List.filter_append, npFoldAdd_append]
  rw [List.filter_map]
  have : ((fun k => k / L % 2 == r) ∘ fun i => D * L + i) = fun j => (D * L + j) / L % 2 == r := rfl
  rw [this, range_filter_dwell]
  split
  · rfl
  · simp [npFoldAdd]

theorem fsLoop_spec (nbins L D : ℕ) (rate : ℚ) (P : ℕ → List ℚ) :
    fsLoop nbins L D rate P =
      ⟨if 1 ≤ D ∧ 1 ≤ L then welchFreqs (fswitch_nperseg nbins) rate else zerosQ nbins,
       if 2 ≤ D ∧ 1 ≤ L then welchFreqs (fswitch_nperseg nbins) rate else zerosQ nbins,
       routedSum P nbins L D 0, routedSum P nbins L D 1, D * L⟩ := by
  induction D with
  | zero =>
    simp [fsLoop, fsInit, routedSum, npFoldAdd]
  | succ n ih =>
    rw [fsLoop_succ, ih]
    by_cases hn : n % 2 = 0
    · have htick : (n % 2 == 0) = true := by simpa using hn
      rw [htick, fsInner_true]
      simp only [FsState.mk.injEq]
      refine ⟨?_, ?_, ?_, ?_, by ring⟩
      · split_ifs <;> first | rfl | omega
      · split_ifs <;> first | rfl | omega
      · rw [routedSum_succ, if_pos hn]
      · rw [routedSum_succ]
        rw [if_neg (by omega)]
    · have htick : (n % 2 == 0) = false := by simpa using hn
      rw [htick, fsInner_false]
      simp only [FsState.mk.injEq]
      refine ⟨?_, ?_, ?_, ?_, by ring⟩
      · split_ifs <;> first | rfl | omega
      · split_ifs <;> first | rfl | omega
      · rw [routedSum_succ]
        rw [if_neg (by omega)]
      · rw [routedSum_succ, if_pos (by omega)]

theorem welchFreqs_length (n : ℕ) (fs : ℚ) : (welchFreqs n fs).length = n := by
  simp [welchFreqs]

theorem fftshift_length {α : Type} (l : List α) : (fftshift l).length = l.length := by
  simp only [fftshift, List.length_append, List.length_drop, List.length_take]
  omega

theorem fftshift_replicate {α : Type} (n : ℕ) (a : α) :
    fftshift (List.replicate n a) = List.replicate n a := by
  rw [fftshift]
  simp only [List.length_replicate, List.drop_replicate, List.take_replicate,
    List.append_replicate_replicate]
  congr 1
  omega

theorem fftshift_getElem_low {α : Type} (l : List α) (i : ℕ) (h : i < l.length / 2) :
    (fftshift l)[i]? = l[l.length - l.length / 2 + i]? := by
  rw [fftshift, List.getElem?_append_left (by simp only [List.length_drop]; omega),
    List.getElem?_drop]

theorem fftshift_getElem_high {α : Type} (l : List α) (i : ℕ)
    (h1 : l.length / 2 ≤ i) (h2 : i < l.length) :
    (fftshift l)[i]? = l[i - l.length / 2]? := by
  rw [fftshift, List.getElem?_append_right (by simp only [List.length_drop]; omega)]
  rw [List.getElem?_take_of_lt (by simp only [List.length_drop]; omega)]
  congr 1
  simp only [List.length_drop]
  omega

theorem welchFreqs_getElem (n : ℕ) (fs : ℚ) (j : ℕ) (h : j < n) :
    (welchFreqs n fs)[j]? = some (fftfreqVal n j * fs) := by
  simp [welchFreqs, List.getElem?_range h]

theorem shift_welch_getElem (n : ℕ) (fs : ℚ) (i : ℕ) (h : i < n) :
    (fftshift (welchFreqs n fs))[i]? = some (((i : ℚ) - ((n / 2 : ℕ) : ℚ)) * fs / (n : ℚ)) := by
  have hlen : (welchFreqs n fs).length = n := welchFreqs_length n fs
  by_cases hi : i < n / 2
  · rw [fftshift_getElem_low _ _ (by omega)]
    rw [hlen, welchFreqs_getElem n fs (n - n / 2 + i) (by omega)]
    rw [fftfreqVal, if_neg (by omega)]
    congr 1
    rw [Nat.cast_add, Nat.cast_sub (Nat.div_le_self n 2)]
    field_simp
    ring
  · rw [fftshift_getElem_high _ _ (by omega) (by omega)]
    rw [hlen, welchFreqs_getElem n fs (i - n / 2) (by omega)]
    rw [fftfreqVal, if_pos (by omega)]
    congr 1
    rw [Nat.cast_sub (by omega)]
    field_simp

theorem shift_welch_zero_mid (n : ℕ) (fs : ℚ) (h : 1 ≤ n) :
    (fftshift (welchFreqs n fs))[n / 2]? = some 0 := by
  rw [shift_welch_getElem n fs (n / 2) (by omega)]
  simp

theorem floor_div_natCast (q : ℚ) (n : ℕ) (hn : 0 < n) :
    ⌊q / (n : ℚ)⌋ = ⌊q⌋ / (n : ℤ) := by
  have hnq : (0 : ℚ) < (n : ℚ) := by exact_mod_cast hn
  have hnz : (0 : ℤ) < (n : ℤ) := by exact_mod_cast hn
  refine eq_of_forall_le_iff (fun z => ?_)
  rw [Int.le_floor, le_div_iff₀ hnq, Int.le_ediv_iff_mul_le hnz,
    show ((z : ℚ) * (n : ℚ)) = ((z * n : ℤ) : ℚ) by push_cast; ring, ← Int.le_floor]

/-- Claim C6 amended: the scheduler is the claimed two-state machine — it
starts in ON (tuned to `fc`), flips parity every dwell, uses
`num_loops = floor((rate / fswitch) / num_samp)` blocks per dwell, and every
block of an even dwell lands in the ON accumulator and every block of an odd
dwell in the OFF accumulator — but the number of dwells is the double-floor
`int(rate * t_int) // int(rate / fswitch)`, which exceeds the claimed
`floor((rate * t_int) / (rate / fswitch))` when `rate / fswitch` is not an
integer. -/
theorem c6_scheduler (num_samp nbins : ℕ) (rate t_int fswitch fc fthrow : ℚ) (P : ℕ → List ℚ)
    (hns : 0 < num_samp) (hr : 0 < rate) (hf : 0 < fswitch) (ht : 0 ≤ t_int) :
    fswitch_num_loops num_samp rate fswitch = ⌊(rate / fswitch) / (num_samp : ℚ)⌋
    ∧ fswitch_num_dwells rate t_int fswitch = Int.fdiv ⌊rate * t_int⌋ ⌊rate / fswitch⌋
    ∧ (fsLoop nbins (fswitch_num_loops num_samp rate fswitch).toNat
        (fswitch_num_dwells rate t_int fswitch).toNat rate P).p_xx_on
      = routedSum P nbins (fswitch_num_loops num_samp rate fswitch).toNat
          (fswitch_num_dwells rate t_int fswitch).toNat 0
    ∧ (fsLoop nbins (fswitch_num_loops num_samp rate fswitch).toNat
        (fswitch_num_dwells rate t_int fswitch).toNat rate P).p_xx_off
      = routedSum P nbins (fswitch_num_loops num_samp rate fswitch).toNat
          (fswitch_num_dwells rate t_int fswitch).toNat 1
    ∧ (fsLoop nbins (fswitch_num_loops num_samp rate fswitch).toNat
        (fswitch_num_dwells rate t_int fswitch).toNat rate P).cnt
      = (fswitch_num_dwells rate t_int fswitch).toNat
          * (fswitch_num_loops num_samp rate fswitch).toNat
    ∧ dwell_tune fc fthrow 0 = fc
    ∧ (∀ i, dwell_tune fc fthrow (i + 2) = dwell_tune fc fthrow i)
    ∧ (fc ≠ fthrow → ∀ i, dwell_tune fc fthrow (i + 1) ≠ dwell_tune fc fthrow i) := by
  have hNd : fswitch_Ndwell rate fswitch = ⌊rate / fswitch⌋ := by
    rw [fswitch_Ndwell, pyInt, if_pos (by positivity), mul_one_div]
  refine ⟨?_, ?_, ?_, ?_, ?_, ?_, ?_, ?_⟩
  · rw [fswitch_num_loops, hNd, Int.fdiv_eq_ediv _ (by exact_mod_cast Nat.zero_le num_samp),
      ← floor_div_natCast _ _ hns]
  · rw [fswitch_num_dwells, fswitch_N, pyInt,
      if_pos (mul_nonneg hr.le ht), hNd]
  · rw [fsLoop_spec]
  · rw [fsLoop_spec]
  · rw [fsLoop_spec]
  · simp [dwell_tune]
  · intro i
    simp [dwell_tune, Nat.add_mod_right]
  · intro hne i
    rcases Nat.mod_two_eq_zero_or_one i with h | h
    · have h1 : ¬ ((i + 1) % 2 = 0) := by omega
      rw [dwell_tune, dwell_tune, if_pos h, if_neg h1]
      exact Ne.symm hne
    · have h1 : (i + 1) % 2 = 0 := by omega
      have h2 : ¬ (i % 2 = 0) := by omega
      rw [dwell_tune, dwell_tune, if_pos h1, if_neg h2]
      exact hne

/-- Witness for C6: at `rate = 4`, `fswitch = 2`, `num_samp = 1` the
blocks-per-dwell count is the claimed floor. -/
theorem c6_scheduler_w :
    fswitch_num_loops 1 4 2 = ⌊((4 : ℚ) / 2) / ((1 : ℕ) : ℚ)⌋ :=
  (c6_scheduler 1 1 4 1 2 0 1 (fun _ => []) (by norm_num) (by norm_num) (by norm_num)
    (by norm_num)).1

/-- Claim C7 counterexample: in the run with `num_samp = 1`, `nbins = 1`,
`rate = 2`, `fc = 0`, `fthrow = 1`, `t_int = 1`, `fswitch = 1` and constant
periodogram `[4]`, the folder receives the raw average `[4]`, while the PSD
normalization of that average (window `[1]`, the length-1 hann window, and
rate 2) is `[2]`: the folder's input was not PSD-normalized. -/
theorem c7_fold_input_not_normalized :
    (fswitch_run_fold_input 1 1 2 0 1 1 1 (fun _ => [4])).p_on = [4]
    ∧ psd_normalize [1] 2 [4] = [2]
    ∧ (fswitch_run_fold_input 1 1 2 0 1 1 1 (fun _ => [4])).p_on ≠ psd_normalize [1] 2 [4] := by
  have hNd : fswitch_Ndwell 2 1 = 2 := by norm_num [fswitch_Ndwell, pyInt]
  have hN : fswitch_N 2 1 = 2 := by norm_num [fswitch_N, pyInt]
  have hL : fswitch_num_loops 1 2 1 = 2 := by rw [fswitch_num_loops, hNd]; decide
  have hD : fswitch_num_dwells 2 1 1 = 1 := by rw [fswitch_num_dwells, hN, hNd]; decide
  have h1 : (fswitch_run_fold_input 1 1 2 0 1 1 1 (fun _ => [4])).p_on = [4] := by
    rw [fswitch_run_fold_input, hL, hD]
    simp [fswitch_fold_input, fsLoop, fsInner, fsStep, fsInit, List.range_succ, npAdd, zerosQ,
      fftshift, npDivScalar]
  have h2 : psd_normalize [1] 2 [4] = [2] := by
    norm_num [psd_normalize, npDivScalar, npMulScalar, npSum, npMul]
  refine ⟨h1, h2, ?_⟩
  rw [h1, h2]
  intro hc
  rw [List.cons.injEq] at hc
  exact absurd hc.1 (by norm_num)

/-- Claim C7 amended: in the frequency-switched path the averaged spectra
are handed to the folder raw: the folder's power inputs are exactly the
fftshifted routed periodogram sums divided by the combined block count, with
no window correction, no division by the sample rate and no dB conversion
applied anywhere in `run_fswitch_int`. -/
theorem c7_fold_inputs_raw (num_samp nbins : ℕ) (rate fc fthrow t_int fswitch : ℚ)
    (P : ℕ → List ℚ) :
    (fswitch_run_fold_input num_samp nbins rate fc fthrow t_int fswitch P).p_on
      = npDivScalar (fftshift (routedSum P nbins (fswitch_num_loops num_samp rate fswitch).toNat
          (fswitch_num_dwells rate t_int fswitch).toNat 0))
          ((((fswitch_num_dwells rate t_int fswitch).toNat
              * (fswitch_num_loops num_samp rate fswitch).toNat : ℕ) : ℚ))
    ∧ (fswitch_run_fold_input num_samp nbins rate fc fthrow t_int fswitch P).p_off
      = npDivScalar (fftshift (routedSum P nbins (fswitch_num_loops num_samp rate fswitch).toNat
          (fswitch_num_dwells rate t_int fswitch).toNat 1))
          ((((fswitch_num_dwells rate t_int fswitch).toNat
              * (fswitch_num_loops num_samp rate fswitch).toNat : ℕ) : ℚ)) := by
  constructor
  · rw [fswitch_run_fold_input, fswitch_fold_input, fsLoop_spec]
  · rw [fswitch_run_fold_input, fswitch_fold_input, fsLoop_spec]

/-- Claim C8: in both runs the returned frequency axis is the fftshift of
the two-sided welch axis with the absolute center frequency (`fc`, or
`fthrow` for the OFF spectrum) added to every bin, the power values pass
through the identical fftshift, and (once at least one block was read) the
middle bin of the returned spectrum-run axis is exactly `fc` — zero
frequency sits in the middle before the shift to absolute frequencies. -/
theorem c8_fft_shift_recentering (num_samp nbins : ℕ) (rate fc fthrow t_int fswitch : ℚ)
    (P Q : ℕ → List ℚ) (getWindow : ℕ → List ℚ) (log10 : ℚ → ℚ)
    (hn : 1 ≤ nbins) (hiter : 1 ≤ (spectrum_num_loops num_samp rate t_int).toNat) :
    (spectrum_pipeline num_samp nbins rate fc t_int P getWindow log10).freqs
      = npAddScalar
          (fftshift (spectrum_pipeline num_samp nbins rate fc t_int P getWindow log10).freqs_welch)
          fc
    ∧ (spectrum_pipeline num_samp nbins rate fc t_int P getWindow log10).p_avg
      = npDivScalar
          (fftshift (spectrum_pipeline num_samp nbins rate fc t_int P getWindow log10).p_xx_tot)
          (((spectrum_pipeline num_samp nbins rate fc t_int P getWindow log10).cnt : ℚ))
    ∧ (spectrum_pipeline num_samp nbins rate fc t_int P getWindow log10).freqs[nbins / 2]?
      = some fc
    ∧ (fswitch_run_fold_input num_samp nbins rate fc fthrow t_int fswitch Q).freqs_on
      = npAddScalar (fftshift (fsLoop nbins (fswitch_num_loops num_samp rate fswitch).toNat
          (fswitch_num_dwells rate t_int fswitch).toNat rate Q).freqs_on) fc
    ∧ (fswitch_run_fold_input num_samp nbins rate fc fthrow t_int fswitch Q).freqs_off
      = npAddScalar (fftshift (fsLoop nbins (fswitch_num_loops num_samp rate fswitch).toNat
          (fswitch_num_dwells rate t_int fswitch).toNat rate Q).freqs_off) fthrow := by
  refine ⟨rfl, rfl, ?_, rfl, rfl⟩
  have hfr : (spectrum_pipeline num_samp nbins rate fc t_int P getWindow log10).freqs
      = npAddScalar (fftshift (welchFreqs nbins rate)) fc := by
    have h0 : (spectrum_pipeline num_samp nbins rate fc t_int P getWindow log10).freqs
        = npAddScalar (fftshift (if (spectrum_num_loops num_samp rate t_int).toNat = 0
            then zerosQ nbins else welchFreqs nbins rate)) fc := rfl
    rw [h0, if_neg (by omega)]
  rw [hfr]
  simp only [npAddScalar, List.getElem?_map, shift_welch_zero_mid nbins rate hn]
  simp

/-- Witness for C8: a concrete spectrum run whose middle returned frequency
bin is the center frequency. -/
theorem c8_fft_shift_recentering_w :
    (spectrum_pipeline 1 2 2 5 1 (fun _ => []) (fun _ => []) (fun x => x)).freqs[2 / 2]?
      = some 5 :=
  (c8_fft_shift_recentering 1 2 2 5 0 1 1 (fun _ => []) (fun _ => []) (fun _ => [])
    (fun x => x) (by norm_num)
    (by rw [show spectrum_num_loops 1 2 1 = 3 from by
          norm_num [spectrum_num_loops, spectrum_N, pyInt]]
        decide)).2.2.1

/-- Claim C10: whenever `run_fswitch_int` reaches the folding step, the two
frequency axes handed to the folder are bin-for-bin translates: the OFF axis
is the ON axis shifted by `fthrow - fc`, and both axes share one uniform bin
spacing. -/
theorem c10_fold_axes (num_samp nbins : ℕ) (rate fc fthrow t_int fswitch : ℚ) (P : ℕ → List ℚ)
    (hns : 0 < num_samp) (hr : 0 < rate) (hf : 0 < fswitch)
    (ht : 2 * (1 / fswitch) ≤ t_int) (hnd : 1 ≤ fswitch_Ndwell rate fswitch) :
    (∀ i : ℕ,
      (fswitch_run_fold_input num_samp nbins rate fc fthrow t_int fswitch P).freqs_off[i]?
        = ((fswitch_run_fold_input num_samp nbins rate fc fthrow t_int fswitch P).freqs_on[i]?).map
            (fun x => x + (fthrow - fc)))
    ∧ ∃ d : ℚ, ∀ i : ℕ, i + 1 < nbins →
        (fswitch_run_fold_input num_samp nbins rate fc fthrow t_int fswitch P).freqs_on[i + 1]?
          = ((fswitch_run_fold_input num_samp nbins rate fc fthrow t_int fswitch P).freqs_on[i]?).map
              (fun x => x + d)
        ∧ (fswitch_run_fold_input num_samp nbins rate fc fthrow t_int fswitch P).freqs_off[i + 1]?
          = ((fswitch_run_fold_input num_samp nbins rate fc fthrow t_int fswitch P).freqs_off[i]?).map
              (fun x => x + d) := by
  have hNd : fswitch_Ndwell rate fswitch = ⌊rate / fswitch⌋ := by
    rw [fswitch_Ndwell, pyInt, if_pos (by positivity), mul_one_div]
  have ht0 : 0 < t_int := lt_of_lt_of_le (by positivity) ht
  have hN : fswitch_N rate t_int = ⌊rate * t_int⌋ := by
    rw [fswitch_N, pyInt, if_pos (mul_nonneg hr.le ht0.le)]
  have hflpos : 0 < ⌊rate / fswitch⌋ := by
    rw [hNd] at hnd
    omega
  have hD2 : 2 ≤ (fswitch_num_dwells rate t_int fswitch).toNat := by
    have h1 : (2 : ℚ) * (rate / fswitch) ≤ rate * t_int := by
      have h2 := mul_le_mul_of_nonneg_left ht hr.le
      calc (2 : ℚ) * (rate / fswitch) = rate * (2 * (1 / fswitch)) := by ring
        _ ≤ rate * t_int := h2
    have h3 : 2 * ⌊rate / fswitch⌋ ≤ ⌊rate * t_int⌋ := by
      refine Int.le_floor.mpr ?_
      calc ((2 * ⌊rate / fswitch⌋ : ℤ) : ℚ) = 2 * ((⌊rate / fswitch⌋ : ℤ) : ℚ) := by push_cast; ring
        _ ≤ 2 * (rate / fswitch) := by
            have h4 := Int.floor_le (rate / fswitch)
            linarith
        _ ≤ rate * t_int := h1
    have h5 : 2 ≤ fswitch_num_dwells rate t_int fswitch := by
      rw [fswitch_num_dwells, hN, hNd, Int.fdiv_eq_ediv _ hflpos.le,
        Int.le_ediv_iff_mul_le hflpos]
      linarith
    omega
  have hon : (fsLoop nbins (fswitch_num_loops num_samp rate fswitch).toNat
      (fswitch_num_dwells rate t_int fswitch).toNat rate P).freqs_on
      = (if 1 ≤ (fswitch_num_loops num_samp rate fswitch).toNat
          then welchFreqs nbins rate else zerosQ nbins) := by
    rw [fsLoop_spec]
    by_cases hL1 : 1 ≤ (fswitch_num_loops num_samp rate fswitch).toNat
    · rw [if_pos hL1]
      show (if _ ∧ _ then _ else _) = _
      rw [if_pos ⟨by omega, hL1⟩]
      rfl
    · rw [if_neg hL1]
      show (if _ ∧ _ then _ else _) = _
      rw [if_neg (by omega)]
  have hoff : (fsLoop nbins (fswitch_num_loops num_samp rate fswitch).toNat
      (fswitch_num_dwells rate t_int fswitch).toNat rate P).freqs_off
      = (if 1 ≤ (fswitch_num_loops num_samp rate fswitch).toNat
          then welchFreqs nbins rate else zerosQ nbins) := by
    rw [fsLoop_spec]
    by_cases hL1 : 1 ≤ (fswitch_num_loops num_samp rate fswitch).toNat
    · rw [if_pos hL1]
      show (if _ ∧ _ then _ else _) = _
      rw [if_pos ⟨by omega, hL1⟩]
      rfl
    · rw [if_neg hL1]
      show (if _ ∧ _ then _ else _) = _
      rw [if_neg (by omega)]
  have hsame : (fsLoop nbins (fswitch_num_loops num_samp rate fswitch).toNat
      (fswitch_num_dwells rate t_int fswitch).toNat rate P).freqs_off
      = (fsLoop nbins (fswitch_num_loops num_samp rate fswitch).toNat
      (fswitch_num_dwells rate t_int fswitch).toNat rate P).freqs_on := by
    rw [hon, hoff]
  constructor
  · intro i
    show (npAddScalar (fftshift (fsLoop nbins (fswitch_num_loops num_samp rate fswitch).toNat
        (fswitch_num_dwells rate t_int fswitch).toNat rate P).freqs_off) fthrow)[i]?
      = ((npAddScalar (fftshift (fsLoop nbins (fswitch_num_loops num_samp rate fswitch).toNat
          (fswitch_num_dwells rate t_int fswitch).toNat rate P).freqs_on) fc)[i]?).map
          (fun x => x + (fthrow - fc))
    rw [hsame]
    cases h : (fftshift (fsLoop nbins (fswitch_num_loops num_samp rate fswitch).toNat
        (fswitch_num_dwells rate t_int fswitch).toNat rate P).freqs_on)[i]? with
    | none => simp [npAddScalar, h]
    | some a =>
      simp only [npAddScalar, List.getElem?_map, h, Option.map_some']
      congr 1
      ring
  · by_cases hL1 : 1 ≤ (fswitch_num_loops num_samp rate fswitch).toNat
    · refine ⟨rate / (nbins : ℚ), fun i hi1 => ?_⟩
      have hBon : (fsLoop nbins (fswitch_num_loops num_samp rate fswitch).toNat
          (fswitch_num_dwells rate t_int fswitch).toNat rate P).freqs_on
          = welchFreqs nbins rate := by rw [hon, if_pos hL1]
      have hBoff : (fsLoop nbins (fswitch_num_loops num_samp rate fswitch).toNat
          (fswitch_num_dwells rate t_int fswitch).toNat rate P).freqs_off
          = welchFreqs nbins rate := by rw [hoff, if_pos hL1]
      constructor
      · show (npAddScalar (fftshift (fsLoop nbins (fswitch_num_loops num_samp rate fswitch).toNat
            (fswitch_num_dwells rate t_int fswitch).toNat rate P).freqs_on) fc)[i + 1]?
          = ((npAddScalar (fftshift (fsLoop nbins
              (fswitch_num_loops num_samp rate fswitch).toNat
              (fswitch_num_dwells rate t_int fswitch).toNat rate P).freqs_on) fc)[i]?).map
              (fun x => x + rate / (nbins : ℚ))
        rw [hBon]
        simp only [npAddScalar, List.getElem?_map,
          shift_welch_getElem nbins rate (i + 1) hi1,
          shift_welch_getElem nbins rate i (by omega), Option.map_some']
        congr 1
        push_cast
        ring
      · show (npAddScalar (fftshift (fsLoop nbins (fswitch_num_loops num_samp rate fswitch).toNat
            (fswitch_num_dwells rate t_int fswitch).toNat rate P).freqs_off) fthrow)[i + 1]?
          = ((npAddScalar (fftshift (fsLoop nbins
              (fswitch_num_loops num_samp rate fswitch).toNat
              (fswitch_num_dwells rate t_int fswitch).toNat rate P).freqs_off) fthrow)[i]?).map
              (fun x => x + rate / (nbins : ℚ))
        rw [hBoff]
        simp only [npAddScalar, List.getElem?_map,
          shift_welch_getElem nbins rate (i + 1) hi1,
          shift_welch_getElem nbins rate i (by omega), Option.map_some']
        congr 1
        push_cast
        ring
    · refine ⟨0, fun i hi1 => ?_⟩
      have hBon : (fsLoop nbins (fswitch_num_loops num_samp rate fswitch).toNat
          (fswitch_num_dwells rate t_int fswitch).toNat rate P).freqs_on
          = zerosQ nbins := by rw [hon, if_neg hL1]
      have hBoff : (fsLoop nbins (fswitch_num_loops num_samp rate fswitch).toNat
          (fswitch_num_dwells rate t_int fswitch).toNat rate P).freqs_off
          = zerosQ nbins := by rw [hoff, if_neg hL1]
      constructor
      · show (npAddScalar (fftshift (fsLoop nbins (fswitch_num_loops num_samp rate fswitch).toNat
            (fswitch_num_dwells rate t_int fswitch).toNat rate P).freqs_on) fc)[i + 1]?
          = ((npAddScalar (fftshift (fsLoop nbins
              (fswitch_num_loops num_samp rate fswitch).toNat
              (fswitch_num_dwells rate t_int fswitch).toNat rate P).freqs_on) fc)[i]?).map
              (fun x => x + 0)
        rw [hBon, zerosQ, fftshift_replicate]
        simp [npAddScalar, List.getElem?_replicate_of_lt hi1,
          List.getElem?_replicate_of_lt (show i < nbins by omega)]
      · show (npAddScalar (fftshift (fsLoop nbins (fswitch_num_loops num_samp rate fswitch).toNat
            (fswitch_num_dwells rate t_int fswitch).toNat rate P).freqs_off) fthrow)[i + 1]?
          = ((npAddScalar (fftshift (fsLoop nbins
              (fswitch_num_loops num_samp rate fswitch).toNat
              (fswitch_num_dwells rate t_int fswitch).toNat rate P).freqs_off) fthrow)[i]?).map
              (fun x => x + 0)
        rw [hBoff, zerosQ, fftshift_replicate]
        simp [npAddScalar, List.getElem?_replicate_of_lt hi1,
          List.getElem?_replicate_of_lt (show i < nbins by omega)]

/-- Witness for C10: a concrete completed frequency-switched run whose OFF
axis is the ON axis translated by the throw at bin 0. -/
theorem c10_fold_axes_w :
    (fswitch_run_fold_input 1 2 4 100 103 1 2 (fun _ => [1, 1])).freqs_off[0]?
      = ((fswitch_run_fold_input 1 2 4 100 103 1 2 (fun _ => [1, 1])).freqs_on[0]?).map
          (fun x => x + (103 - 100)) :=
  (c10_fold_axes 1 2 4 100 103 1 2 (fun _ => [1, 1]) (by norm_num) (by norm_num) (by norm_num)
    (by norm_num) (by norm_num [fswitch_Ndwell, pyInt])).1 0

end RtlObs
